import Mathlib

/-!
Verification development for the Google-Scholar-Data-Retriever repository.

The program's core is `generate_all.py`: five pure field extractors
(`extract_issn`, `extract_isbn`, `extract_page_numbers`, `extract_issue`,
`extract_conference_name`) driven by Python `re.search` over a fixed list of
patterns, and a record assembler (`scrape_scholar_data`) with a retry loop
around an external data source.

This file shallow-embeds that code:
 * a small backtracking regular-expression engine (`RE`, `mtch`, `reSearch`)
   reproducing Python `re.search` semantics for the constructs those patterns
   actually use (character classes, greedy and lazy repetition of a class,
   bounded repetition, option, alternation, capture groups, the negative
   lookahead `(?!\d)`, and the `$` anchor); inputs are treated at the
   character level, matching Python's behaviour on the ASCII texts involved;
 * the five extractors, pattern by pattern, in source order;
 * the assembler, with the external source abstracted as an oracle giving the
   outcome of each retry attempt, and sleeps recorded instead of performed.
-/

/-- Regular-expression abstract syntax, covering exactly the constructs used
by the patterns in `generate_all.py`.  All unbounded and bounded repetition in
those patterns is over a single character class, which is what `star` and
`rep` provide. -/
inductive RE where
  | eps
  | eos
  | cls (p : Char → Bool)
  | nla (p : Char → Bool)
  | star (greedy : Bool) (p : Char → Bool)
  | rep (lo hi : Nat) (p : Char → Bool)
  | opt (r : RE)
  | grp (i : Nat) (r : RE)
  | seq (a b : RE)
  | alt (a b : RE)

/-- Suffixes of `s` obtainable by consuming zero or more leading characters
satisfying `p`, ordered by increasing consumption. -/
def clsSuffixes (p : Char → Bool) : List Char → List (List Char)
  | [] => [[]]
  | c :: cs => (c :: cs) :: (if p c then clsSuffixes p cs else [])

/-- Suffixes of `s` obtainable by consuming at most `n` leading characters
satisfying `p`, ordered by increasing consumption. -/
def clsSuffixesUpTo (p : Char → Bool) : Nat → List Char → List (List Char)
  | 0, s => [s]
  | _ + 1, [] => [[]]
  | n + 1, c :: cs => (c :: cs) :: (if p c then clsSuffixesUpTo p n cs else [])

/-- Backtracking matcher: all ways for `r` to match a prefix of `s`, each as
(remaining suffix, captured groups), in the priority order a Python
backtracking engine explores them (so the head is the match Python picks).
A capture is recorded as (group index, captured characters). -/
def mtch : RE → List Char → List (List Char × List (Nat × List Char))
  | .eps, s => [(s, [])]
  | .eos, s => if s.isEmpty then [(s, [])] else []
  | .cls _, [] => []
  | .cls p, c :: cs => if p c then [(cs, [])] else []
  | .nla _, [] => [([], [])]
  | .nla p, s@(c :: _) => if p c then [] else [(s, [])]
  | .star true p, s => ((clsSuffixes p s).reverse).map (fun s2 => (s2, []))
  | .star false p, s => (clsSuffixes p s).map (fun s2 => (s2, []))
  | .rep lo hi p, s =>
      (((clsSuffixesUpTo p hi s).filter (fun s2 => lo + s2.length ≤ s.length)).reverse).map
        (fun s2 => (s2, []))
  | .opt r, s => mtch r s ++ [(s, [])]
  | .grp i r, s =>
      (mtch r s).map (fun pr => (pr.1, (i, s.take (s.length - pr.1.length)) :: pr.2))
  | .seq a b, s =>
      (mtch a s).flatMap (fun pr => (mtch b pr.1).map (fun qr => (qr.1, pr.2 ++ qr.2)))
  | .alt a b, s => mtch a s ++ mtch b s

/-- Scan for the leftmost start position at which `r` matches, as `re.search`
does; return the captures of the match found there. -/
def searchFrom (r : RE) : List Char → Option (List (Nat × List Char))
  | [] => ((mtch r []).head?).map (fun pr => pr.2)
  | c :: cs =>
    match (mtch r (c :: cs)).head? with
    | some pr => some pr.2
    | none => searchFrom r cs

/-- Python `re.search(pattern, text)`: captures of the leftmost match, or
`none` when the pattern does not occur. -/
def reSearch (r : RE) (s : String) : Option (List (Nat × List Char)) :=
  searchFrom r s.data

/-- Single literal character. -/
def chr (c : Char) : RE := .cls (fun x => x == c)

/-- Literal character sequence. -/
def strRE : List Char → RE
  | [] => .eps
  | c :: cs => .seq (chr c) (strRE cs)

/-- Literal character sequence, case-insensitive (for `re.IGNORECASE`
patterns; the stored characters are lowercase). -/
def strRECI : List Char → RE
  | [] => .eps
  | c :: cs => .seq (.cls (fun x => x.toLower == c)) (strRECI cs)

/-- Literal string. -/
def litS (s : String) : RE := strRE s.data

/-- Literal string, case-insensitive. -/
def litSCI (s : String) : RE := strRECI s.data

/-- Sequence of regular expressions. -/
def seqs (l : List RE) : RE := l.foldr .seq .eps

/-- Python `\d` (the texts involved are ASCII). -/
def dCls (c : Char) : Bool := c.isDigit

/-- Python `\s` on ASCII text. -/
def wsCls (c : Char) : Bool :=
  c == ' ' || c == '\t' || c == '\n' || c == '\r' || c == '\x0b' || c == '\x0c'

/-- Character class `[\s\(]`. -/
def wsOpenCls (c : Char) : Bool := wsCls c || c == '('

/-- Character class `[\s\)]`. -/
def wsCloseCls (c : Char) : Bool := wsCls c || c == ')'

/-- Character class `[-–—]` (hyphen, en dash, em dash). -/
def dashCls (c : Char) : Bool := c == '-' || c == '–' || c == '—'

/-- Character class `[-–—:]`. -/
def dashColonCls (c : Char) : Bool := dashCls c || c == ':'

/-- Character class `[,:]`. -/
def commaColonCls (c : Char) : Bool := c == ',' || c == ':'

/-- Character class `[\.,]`. -/
def dotCommaCls (c : Char) : Bool := c == '.' || c == ','

/-- Character class `[\d-]`. -/
def digitDashCls (c : Char) : Bool := c.isDigit || c == '-'

/-- Python `.` (any character but newline). -/
def anyCls (c : Char) : Bool := !(c == '\n')

/-- Greedy `p+` for a character class `p`. -/
def plus1 (p : Char → Bool) : RE := .seq (.cls p) (.star true p)

/-- Greedy `\s*`. -/
def wsStar : RE := .star true wsCls

/-- Greedy `\s+`. -/
def wsPlus : RE := .seq (.cls wsCls) wsStar

/-! ## The five field extractors of `generate_all.py` -/

/-- Pattern `ISSN:?\s*(\d{4}-\d{4})`. -/
def issnPat1 : RE :=
  seqs [litS "ISSN", .opt (chr ':'), wsStar,
        .grp 1 (seqs [.rep 4 4 dCls, chr '-', .rep 4 4 dCls])]

/-- Pattern `[\s\(](\d{4}-\d{4})[\s\)]`. -/
def issnPat2 : RE :=
  seqs [.cls wsOpenCls,
        .grp 1 (seqs [.rep 4 4 dCls, chr '-', .rep 4 4 dCls]),
        .cls wsCloseCls]

/-- Pattern `eISSN:?\s*(\d{4}-\d{4})`. -/
def issnPat3 : RE :=
  seqs [litS "eISSN", .opt (chr ':'), wsStar,
        .grp 1 (seqs [.rep 4 4 dCls, chr '-', .rep 4 4 dCls])]

/-- Pattern `pISSN:?\s*(\d{4}-\d{4})`. -/
def issnPat4 : RE :=
  seqs [litS "pISSN", .opt (chr ':'), wsStar,
        .grp 1 (seqs [.rep 4 4 dCls, chr '-', .rep 4 4 dCls])]

/-- The four ISSN patterns, in the source's order. -/
def issnPatterns : List RE := [issnPat1, issnPat2, issnPat3, issnPat4]

/-- Shared loop shape of `extract_issn` and `extract_issue`: try each pattern
in order with `re.search`; on the first match return `match.group(1)` (group 1
always participates in these patterns); with no match return `''`. -/
def firstGroupScan : List RE → String → String
  | [], _ => ""
  | p :: ps, t =>
    match reSearch p t with
    | none => firstGroupScan ps t
    | some caps => ((List.lookup 1 caps).map String.mk).getD ""

/-- `extract_issn` from `generate_all.py`. -/
def extract_issn (bib_text : String) : String :=
  firstGroupScan issnPatterns bib_text

/-- Pattern `ISBN-13:?\s*([\d-]{17})`. -/
def isbnPat1 : RE :=
  seqs [strRE ['I', 'S', 'B', 'N', '-', '1', '3'], .opt (chr ':'), wsStar,
        .grp 1 (.rep 17 17 digitDashCls)]

/-- Pattern `ISBN-10:?\s*([\d-]{13})`. -/
def isbnPat2 : RE :=
  seqs [strRE ['I', 'S', 'B', 'N', '-', '1', '0'], .opt (chr ':'), wsStar,
        .grp 1 (.rep 13 13 digitDashCls)]

/-- Pattern `ISBN:?\s*([\d-]{13,17})`. -/
def isbnPat3 : RE :=
  seqs [strRE ['I', 'S', 'B', 'N'], .opt (chr ':'), wsStar,
        .grp 1 (.rep 13 17 digitDashCls)]

/-- Pattern `[\s\(](978[\d-]{10,14})[\s\)]`. -/
def isbnPat4 : RE :=
  seqs [.cls wsOpenCls,
        .grp 1 (.seq (strRE ['9', '7', '8']) (.rep 10 14 digitDashCls)),
        .cls wsCloseCls]

/-- Pattern `[\s\(]([\d-]{10,13})[\s\)]`. -/
def isbnPat5 : RE :=
  seqs [.cls wsOpenCls, .grp 1 (.rep 10 13 digitDashCls), .cls wsCloseCls]

/-- The five ISBN patterns, in the source's order. -/
def isbnPatterns : List RE := [isbnPat1, isbnPat2, isbnPat3, isbnPat4, isbnPat5]

/-- `re.sub(r'[-\s]', '', isbn)`: drop hyphens and whitespace. -/
def stripSep (g : List Char) : List Char :=
  g.filter (fun c => !(c == '-' || wsCls c))

/-- Loop of `extract_isbn`: first pattern whose (separator-stripped) candidate
has length 10 or 13 wins; a candidate of any other length is rejected and the
next pattern is tried. -/
def isbnScan : List RE → String → String
  | [], _ => ""
  | p :: ps, t =>
    match reSearch p t with
    | none => isbnScan ps t
    | some caps =>
      match List.lookup 1 caps with
      | none => isbnScan ps t
      | some g =>
        let isbn := stripSep g
        if isbn.length = 10 ∨ isbn.length = 13 then String.mk isbn else isbnScan ps t

/-- `extract_isbn` from `generate_all.py`. -/
def extract_isbn (bib_text : String) : String :=
  isbnScan isbnPatterns bib_text

/-- Shared tail `(\d+)\s*[-–—]\s*(\d+)` of several page-range patterns. -/
def rangeTail : RE :=
  seqs [.grp 1 (plus1 dCls), wsStar, .cls dashCls, wsStar, .grp 2 (plus1 dCls)]

/-- Head `pp?\.?` of the `pp.`-style patterns. -/
def ppHead : RE := seqs [chr 'p', .opt (chr 'p'), .opt (chr '.')]

/-- Head `pages?` of the `page(s)`-style patterns. -/
def pagesHead : RE := .seq (litS "page") (.opt (chr 's'))

/-- Pattern `pp?\.?\s*(\d+)\s*[-–—]\s*(\d+)`. -/
def pagePat0 : RE := seqs [ppHead, wsStar, rangeTail]

/-- Pattern `pages?\s*(\d+)\s*[-–—]\s*(\d+)`. -/
def pagePat1 : RE := seqs [pagesHead, wsStar, rangeTail]

/-- Pattern `[\s\(](\d+)\s*[-–—]\s*(\d+)[\s\)]`. -/
def pagePat2 : RE :=
  seqs [.cls wsOpenCls, .grp 1 (plus1 dCls), wsStar, .cls dashCls, wsStar,
        .grp 2 (plus1 dCls), .cls wsCloseCls]

/-- Pattern `Article\s+\d+,?\s+pp?\.?\s*(\d+)\s*[-–—]\s*(\d+)`. -/
def pagePat3 : RE :=
  seqs [litS "Article", wsPlus, plus1 dCls, .opt (chr ','), wsPlus, ppHead,
        wsStar, rangeTail]

/-- Pattern `(\d+)\s*[-–—:]\s*(\d+)`. -/
def pagePat4 : RE :=
  seqs [.grp 1 (plus1 dCls), wsStar, .cls dashColonCls, wsStar, .grp 2 (plus1 dCls)]

/-- Pattern `pp?\.?\s*(\d+)(?!\d)`. -/
def pagePat5 : RE := seqs [ppHead, wsStar, .grp 1 (plus1 dCls), .nla dCls]

/-- Pattern `pages?\s*(\d+)(?!\d)`. -/
def pagePat6 : RE := seqs [pagesHead, wsStar, .grp 1 (plus1 dCls), .nla dCls]

/-- Pattern `Vol\.\s*\d+\s*[,:]\s*(?:No\.\s*\d+\s*[,:]\s*)?pp?\.?\s*(\d+)\s*[-–—]\s*(\d+)`. -/
def pagePat7 : RE :=
  seqs [litS "Vol.", wsStar, plus1 dCls, wsStar, .cls commaColonCls, wsStar,
        .opt (seqs [litS "No.", wsStar, plus1 dCls, wsStar, .cls commaColonCls, wsStar]),
        ppHead, wsStar, rangeTail]

/-- Pattern `[Pp]ages?\s*(\d+)[Ee]\d+\s*[-–—]\s*(\d+)[Ee]\d+`. -/
def pagePat8 : RE :=
  seqs [.cls (fun c => c == 'P' || c == 'p'), litS "age", .opt (chr 's'), wsStar,
        .grp 1 (plus1 dCls), .cls (fun c => c == 'E' || c == 'e'), plus1 dCls,
        wsStar, .cls dashCls, wsStar,
        .grp 2 (plus1 dCls), .cls (fun c => c == 'E' || c == 'e'), plus1 dCls]

/-- The `patterns` list of `extract_page_numbers`, in source order: patterns
0-4 are ranges, 5-6 the single-page patterns, 7-8 the volume-qualified and
Elsevier-style ranges. -/
def pagePatterns : List RE :=
  [pagePat0, pagePat1, pagePat2, pagePat3, pagePat4, pagePat5, pagePat6,
   pagePat7, pagePat8]

/-- Value of a digit string, as Python `int` computes it. -/
def natOfDigits (s : List Char) : Nat :=
  s.foldl (fun a c => a * 10 + (c.toNat - '0'.toNat)) 0

/-- Python `int(s)` restricted to what regex captures can look like: succeeds
exactly on non-empty all-digit strings (otherwise `ValueError`, modelled as
`none`). -/
def pyInt? (s : List Char) : Option Nat :=
  if s ≠ [] ∧ s.all Char.isDigit then some (natOfDigits s) else none

/-- First loop of `extract_page_numbers` (over `patterns[:-2]`): on a match,
read groups 1 and 2 — a pattern with a single group raises `IndexError`
(`none` lookup) and is skipped — parse both as integers (stripping leading
zeros), and return `(start, end, end - start + 1)` as strings. -/
def rangeScan : List RE → String → Option (String × String × String)
  | [], _ => none
  | p :: ps, t =>
    match reSearch p t with
    | none => rangeScan ps t
    | some caps =>
      match List.lookup 1 caps, List.lookup 2 caps with
      | some g1, some g2 =>
        match pyInt? g1, pyInt? g2 with
        | some a, some b =>
          some (toString a, toString b, toString ((b : Int) - (a : Int) + 1))
        | _, _ => rangeScan ps t
      | _, _ => rangeScan ps t

/-- Second loop of `extract_page_numbers` (over `patterns[-2:]`): on a match,
parse group 1 and return `(page, page, '1')`. -/
def singleScan : List RE → String → Option (String × String × String)
  | [], _ => none
  | p :: ps, t =>
    match reSearch p t with
    | none => singleScan ps t
    | some caps =>
      match List.lookup 1 caps with
      | none => singleScan ps t
      | some g =>
        match pyInt? g with
        | some n => some (toString n, toString n, "1")
        | none => singleScan ps t

/-- Helper for `re.findall(r'(\d+)', text)`: accumulate the current digit run
(in reverse) while scanning. -/
def digitRunsAux : List Char → List Char → List (List Char)
  | acc, [] => if acc.isEmpty then [] else [acc.reverse]
  | acc, c :: cs =>
    if c.isDigit then digitRunsAux (c :: acc) cs
    else (if acc.isEmpty then [] else [acc.reverse]) ++ digitRunsAux [] cs

/-- `re.findall(r'(\d+)', text)`: the maximal digit runs of `text`, in order. -/
def digitRuns (t : String) : List (List Char) := digitRunsAux [] t.data

/-- Fallback loop of `extract_page_numbers`: first digit run whose value `n`
satisfies `1 <= n <= 9999` and not `1900 <= n <= 2100`. -/
def fallbackScan : List (List Char) → Option Nat
  | [] => none
  | num :: rest =>
    match pyInt? num with
    | some n =>
      if 1 ≤ n ∧ n ≤ 9999 ∧ ¬(1900 ≤ n ∧ n ≤ 2100) then some n else fallbackScan rest
    | none => fallbackScan rest

/-- `extract_page_numbers` from `generate_all.py`.  Note the source slices:
the first loop runs over `patterns[:-2]` (indices 0-6, which include the
single-page patterns 5 and 6) and the second over `patterns[-2:]` (indices
7-8, the volume-qualified and Elsevier range patterns). -/
def extract_page_numbers (bib_text : String) : String × String × String :=
  match rangeScan (pagePatterns.take (pagePatterns.length - 2)) bib_text with
  | some r => r
  | none =>
    match singleScan (pagePatterns.drop (pagePatterns.length - 2)) bib_text with
    | some r => r
    | none =>
      match fallbackScan (digitRuns bib_text) with
      | some n => (toString n, toString n, "1")
      | none => ("", "", "")

/-- Pattern `issue\s*(\d+)`. -/
def issuePat1 : RE := seqs [litS "issue", wsStar, .grp 1 (plus1 dCls)]

/-- Pattern `no\.\s*(\d+)`. -/
def issuePat2 : RE := seqs [litS "no.", wsStar, .grp 1 (plus1 dCls)]

/-- Pattern `\((\d+)\)`. -/
def issuePat3 : RE := seqs [chr '(', .grp 1 (plus1 dCls), chr ')']

/-- Pattern `#(\d+)`. -/
def issuePat4 : RE := seqs [chr '#', .grp 1 (plus1 dCls)]

/-- The four issue patterns, in the source's order. -/
def issuePatterns : List RE := [issuePat1, issuePat2, issuePat3, issuePat4]

/-- Python `str.lower()`, charwise (the texts involved are ASCII, where
`Char.toLower` and Python's lowercasing agree). -/
def lowerAscii (s : String) : String := String.mk (s.data.map Char.toLower)

/-- `extract_issue` from `generate_all.py`: the patterns are searched in the
lower-cased text. -/
def extract_issue (bib_text : String) : String :=
  firstGroupScan issuePatterns (lowerAscii bib_text)

/-- The `conf_indicators` list of `extract_conference_name`. -/
def conf_indicators : List String :=
  ["conference", "conf", "symposium", "workshop", "proceedings"]

/-- Pattern `.*?(<indicator>.*?)(20\d{2}|19\d{2}|[\.,]|$)` compiled with
`re.IGNORECASE` (only the indicator letters are case-sensitive material). -/
def confPattern (ind : String) : RE :=
  seqs [.star false anyCls,
        .grp 1 (.seq (litSCI ind) (.star false anyCls)),
        .grp 2 (.alt (.seq (litS "20") (.rep 2 2 dCls))
                  (.alt (.seq (litS "19") (.rep 2 2 dCls))
                    (.alt (.cls dotCommaCls) .eos)))]

/-- Indicator loop of `extract_conference_name`: first indicator whose pattern
matches the title yields `match.group(1).strip()`. -/
def confScan (title : String) : List String → String
  | [] => ""
  | ind :: inds =>
    match reSearch (confPattern ind) title with
    | some caps => (((List.lookup 1 caps).map String.mk).getD "").trim
    | none => confScan title inds

/-- `extract_conference_name` from `generate_all.py`: a non-empty venue is
returned verbatim; otherwise the title is scanned for each indicator in turn.
Python `.strip()` is rendered as `String.trim` (same behaviour on the ASCII
whitespace the texts involved contain). -/
def extract_conference_name (venue title : String) : String :=
  if venue ≠ "" then venue else confScan title conf_indicators

/-! ## The record assembler `scrape_scholar_data` -/

/-- A publication's `bib` dictionary: `bib.get(key, '')` is modelled by a
field per key, with `''` standing for an absent key. -/
structure Bib where
  title : String := ""
  pub_year : String := ""
  venue : String := ""
  journal : String := ""
  volume : String := ""
  pages : String := ""
  citation : String := ""
  abstract : String := ""
  note : String := ""
  publisher : String := ""
deriving DecidableEq, Repr

/-- A filled publication: its `bib` record plus the top-level fields the
assembler reads (`num_citations` is kept as the string that ends up in the
output record). -/
structure Pub where
  bib : Bib
  num_citations : String := ""
  pub_url : String := ""
deriving DecidableEq, Repr

/-- The author-level fields the assembler reads. -/
structure AuthorInfo where
  hindex : String := ""
  i10index : String := ""
deriving DecidableEq, Repr

/-- One output row (the `publication` dictionary built at lines 205-225 of
`generate_all.py`).  Field names follow the dictionary keys: `authorName` is
'Author Name', `academicYear` is 'Academic year', `conferenceName` is 'Name of
Conference', `journalName` is 'Name of Journal', `citedBy` is 'Cited by',
`date` is 'Date', `hIndex`/`iIndex` are 'h index'/'i index'. -/
structure Record where
  authorName : String
  title : String
  academicYear : String
  year : String
  conferenceName : String
  journalName : String
  volume : String
  issue : String
  pageStart : String
  pageEnd : String
  pageCount : String
  citedBy : String
  DOI : String
  date : String
  hIndex : String
  iIndex : String
  publisher : String
  ISSN : String
  ISBN : String
deriving DecidableEq, Repr

/-- The `full_text` corpus of lines 179-185: citation, abstract, note, volume
and pages concatenated in that fixed order. -/
def rawCorpus (b : Bib) : String :=
  b.citation ++ b.abstract ++ b.note ++ b.volume ++ b.pages

/-- Lines 177-225 of `generate_all.py`: run the extractors and build the
output dictionary for one publication.  Note the extractor inputs: page
numbers, ISSN and ISBN read `full_text`; the issue extractor reads
`citation + volume` only; the conference extractor reads venue and title. -/
def makeRecord (search_query : String) (author : AuthorInfo) (p : Pub) : Record :=
  let full_text := rawCorpus p.bib
  let pages := extract_page_numbers full_text
  let issue := extract_issue (p.bib.citation ++ p.bib.volume)
  let conference_name := extract_conference_name p.bib.venue p.bib.title
  let issn := extract_issn full_text
  let isbn := extract_isbn full_text
  { authorName := search_query
    title := p.bib.title
    academicYear := p.bib.pub_year
    year := p.bib.pub_year
    conferenceName := conference_name
    journalName := p.bib.journal
    volume := p.bib.volume
    issue := issue
    pageStart := pages.1
    pageEnd := pages.2.1
    pageCount := pages.2.2
    citedBy := p.num_citations
    DOI := p.pub_url
    date := p.bib.pub_year
    hIndex := author.hindex
    iIndex := author.i10index
    publisher := p.bib.publisher
    ISSN := issn
    ISBN := isbn }

/-- The per-publication loop (lines 173-233): each element is `some p` when
`scholarly.fill(pub)` and record construction succeed, `none` when processing
that publication raises — the exception is caught, the publication skipped,
and the loop continues. -/
def processPubs (q : String) (a : AuthorInfo) : List (Option Pub) → List Record
  | [] => []
  | none :: rest => processPubs q a rest
  | some p :: rest => makeRecord q a p :: processPubs q a rest

/-- Outcome of one attempt of the retry loop, as seen from the code:
`fail` is an exception in the author search / author fill phase (every
statement of the outer `try` that can raise runs before any record is
appended; the whole per-publication body sits in its own `try`);
`noAuthor` is the `StopIteration` branch (no author found);
`ok` is a completed author fetch with its publication list. -/
inductive AttemptOutcome where
  | fail
  | noAuthor
  | ok (a : AuthorInfo) (pubs : List (Option Pub))
deriving DecidableEq, Repr

/-- Observable result of `scrape_scholar_data`: the returned list of records,
the back-off sleeps performed between attempts (in seconds, in order), and
how many attempts were started.  The random per-publication politeness sleep
(line 229) is not modelled; no claim concerns it. -/
structure ScrapeResult where
  records : List Record
  backoffs : List Nat
  attempts : Nat
deriving DecidableEq, Repr

/-- The retry loop of lines 161-245, with `fuel` attempts remaining out of
`m = max_retries` (so the 0-based attempt index is `m - fuel`):
`noAuthor` returns the collected records immediately; `ok` processes the
publications and breaks; `fail` sleeps `(attempt+1)*5` seconds and retries,
except on the last attempt, which just ends the loop. -/
def scrapeFuel (q : String) (w : Nat → AttemptOutcome) (m : Nat) :
    Nat → List Record → List Nat → ScrapeResult
  | 0, acc, sleeps => ⟨acc, sleeps, m⟩
  | fuel + 1, acc, sleeps =>
    let attempt := m - (fuel + 1)
    match w attempt with
    | .noAuthor => ⟨acc, sleeps, attempt + 1⟩
    | .ok a pubs => ⟨acc ++ processPubs q a pubs, sleeps, attempt + 1⟩
    | .fail =>
      if fuel = 0 then ⟨acc, sleeps, attempt + 1⟩
      else scrapeFuel q w m fuel acc (sleeps ++ [(attempt + 1) * 5])

/-- `scrape_scholar_data(search_query, max_retries=3)`, with the external
source abstracted as the oracle `w` giving each attempt's outcome. -/
def scrape_scholar_data (q : String) (w : Nat → AttemptOutcome) (m : Nat) : ScrapeResult :=
  scrapeFuel q w m m [] []

/-! ## Engine lemmas: what a match can consume and capture -/

/-- Overapproximation of the characters `r` can consume. -/
def canConsume : RE → Char → Bool
  | .eps, _ => false
  | .eos, _ => false
  | .cls p, c => p c
  | .nla _, _ => false
  | .star _ p, c => p c
  | .rep _ _ p, c => p c
  | .opt r, c => canConsume r c
  | .grp _ r, c => canConsume r c
  | .seq a b, c => canConsume a c || canConsume b c
  | .alt a b, c => canConsume a c || canConsume b c

/-- `r` contains no capture group. -/
def groupFree : RE → Bool
  | .opt r => groupFree r
  | .grp _ _ => false
  | .seq a b => groupFree a && groupFree b
  | .alt a b => groupFree a && groupFree b
  | _ => true

/-- Every capture group numbered 1 inside `r` has a body consuming only
characters satisfying `q`. -/
def REok1 (q : Char → Bool) : RE → Prop
  | .opt r => REok1 q r
  | .grp i r => (i = 1 → ∀ c, canConsume r c = true → q c = true) ∧ REok1 q r
  | .seq a b => REok1 q a ∧ REok1 q b
  | .alt a b => REok1 q a ∧ REok1 q b
  | _ => True

theorem clsSuffixes_spec {p : Char → Bool} :
    ∀ {s s' : List Char}, s' ∈ clsSuffixes p s →
      ∃ pre, s = pre ++ s' ∧ ∀ c ∈ pre, p c = true := by
  intro s
  induction s with
  | nil =>
    intro s' hs'
    simp [clsSuffixes] at hs'
    exact ⟨[], by simp [hs']⟩
  | cons c cs ih =>
    intro s' hs'
    simp only [clsSuffixes] at hs'
    rcases List.mem_cons.mp hs' with h | h
    · exact ⟨[], by simp [h]⟩
    · by_cases hp : p c
      · simp only [hp, if_true] at h
        obtain ⟨pre, hpre, hall⟩ := ih h
        refine ⟨c :: pre, by simp [hpre], ?_⟩
        intro x hx
        rcases List.mem_cons.mp hx with h' | h'
        · simpa [h'] using hp
        · exact hall x h'
      · simp [hp] at h

theorem clsSuffixesUpTo_spec {p : Char → Bool} :
    ∀ {n : Nat} {s s' : List Char}, s' ∈ clsSuffixesUpTo p n s →
      ∃ pre, s = pre ++ s' ∧ ∀ c ∈ pre, p c = true := by
  intro n
  induction n with
  | zero =>
    intro s s' hs'
    simp [clsSuffixesUpTo] at hs'
    exact ⟨[], by simp [hs']⟩
  | succ n ih =>
    intro s s' hs'
    match s with
    | [] =>
      simp [clsSuffixesUpTo] at hs'
      exact ⟨[], by simp [hs']⟩
    | c :: cs =>
      simp only [clsSuffixesUpTo] at hs'
      rcases List.mem_cons.mp hs' with h | h
      · exact ⟨[], by simp [h]⟩
      · by_cases hp : p c
        · simp only [hp, if_true] at h
          obtain ⟨pre, hpre, hall⟩ := ih h
          refine ⟨c :: pre, by simp [hpre], ?_⟩
          intro x hx
          rcases List.mem_cons.mp hx with h' | h'
          · simpa [h'] using hp
          · exact hall x h'
        · simp [hp] at h

/-- Any result of `mtch r s` leaves a suffix of `s`, and the consumed prefix
consists of characters `r` can consume. -/
theorem mtch_consumes :
    ∀ (r : RE) (s : List Char) (pr : List Char × List (Nat × List Char)),
      pr ∈ mtch r s → ∃ pre, s = pre ++ pr.1 ∧ ∀ c ∈ pre, canConsume r c = true := by
  intro r
  induction r with
  | eps =>
    intro s pr hpr
    simp [mtch] at hpr
    exact ⟨[], by simp [hpr]⟩
  | eos =>
    intro s pr hpr
    simp only [mtch] at hpr
    by_cases h : s.isEmpty
    · simp [h] at hpr
      exact ⟨[], by simp [hpr]⟩
    · simp [h] at hpr
  | cls p =>
    intro s pr hpr
    match s with
    | [] => simp [mtch] at hpr
    | c :: cs =>
      simp only [mtch] at hpr
      by_cases h : p c
      · simp [h] at hpr
        refine ⟨[c], by simp [hpr], ?_⟩
        intro x hx
        rcases List.mem_singleton.mp hx with h'
        simpa [canConsume, h'] using h
      · simp [h] at hpr
  | nla p =>
    intro s pr hpr
    match s with
    | [] =>
      simp [mtch] at hpr
      exact ⟨[], by simp [hpr]⟩
    | c :: cs =>
      simp only [mtch] at hpr
      by_cases h : p c
      · simp [h] at hpr
      · simp [h] at hpr
        exact ⟨[], by simp [hpr]⟩
  | star g p =>
    intro s pr hpr
    match g with
    | true =>
      simp only [mtch, List.mem_map, List.mem_reverse] at hpr
      obtain ⟨s2, hs2, hpr2⟩ := hpr
      obtain ⟨pre, hpre, hall⟩ := clsSuffixes_spec hs2
      exact ⟨pre, by simp [← hpr2, hpre], by simpa [canConsume] using hall⟩
    | false =>
      simp only [mtch, List.mem_map] at hpr
      obtain ⟨s2, hs2, hpr2⟩ := hpr
      obtain ⟨pre, hpre, hall⟩ := clsSuffixes_spec hs2
      exact ⟨pre, by simp [← hpr2, hpre], by simpa [canConsume] using hall⟩
  | rep lo hi p =>
    intro s pr hpr
    simp only [mtch, List.mem_map, List.mem_reverse, List.mem_filter] at hpr
    obtain ⟨s2, ⟨hs2, _⟩, hpr2⟩ := hpr
    obtain ⟨pre, hpre, hall⟩ := clsSuffixesUpTo_spec hs2
    exact ⟨pre, by simp [← hpr2, hpre], by simpa [canConsume] using hall⟩
  | opt r ih =>
    intro s pr hpr
    simp only [mtch] at hpr
    rcases List.mem_append.mp hpr with h | h
    · obtain ⟨pre, hpre, hall⟩ := ih s pr h
      exact ⟨pre, hpre, by simpa [canConsume] using hall⟩
    · rcases List.mem_singleton.mp h with h'
      exact ⟨[], by simp [h']⟩
  | grp i r ih =>
    intro s pr hpr
    simp only [mtch, List.mem_map] at hpr
    obtain ⟨pr2, hpr2, hmap⟩ := hpr
    obtain ⟨pre, hpre, hall⟩ := ih s pr2 hpr2
    exact ⟨pre, by simp [← hmap, hpre], by simpa [canConsume] using hall⟩
  | seq a b iha ihb =>
    intro s pr hpr
    simp only [mtch, List.mem_flatMap, List.mem_map] at hpr
    obtain ⟨pa, hpa, qr, hqr, hmap⟩ := hpr
    obtain ⟨preA, hpreA, hallA⟩ := iha s pa hpa
    obtain ⟨preB, hpreB, hallB⟩ := ihb pa.1 qr hqr
    refine ⟨preA ++ preB, ?_, ?_⟩
    · simp [← hmap, hpreA, hpreB, List.append_assoc]
    · intro c hc
      rcases List.mem_append.mp hc with h | h
      · simp [canConsume, hallA c h]
      · simp [canConsume, hallB c h]
  | alt a b iha ihb =>
    intro s pr hpr
    simp only [mtch] at hpr
    rcases List.mem_append.mp hpr with h | h
    · obtain ⟨pre, hpre, hall⟩ := iha s pr h
      exact ⟨pre, hpre, fun c hc => by simp [canConsume, hall c hc]⟩
    · obtain ⟨pre, hpre, hall⟩ := ihb s pr h
      exact ⟨pre, hpre, fun c hc => by simp [canConsume, hall c hc]⟩

theorem take_append_sub {pre s' : List Char} :
    (pre ++ s').take ((pre ++ s').length - s'.length) = pre := by
  have h : (pre ++ s').length - s'.length = pre.length := by
    simp [List.length_append]
  rw [h]
  exact List.take_left pre s'

/-- If every group numbered 1 in `r` is `q`-bounded, then every capture that
`mtch` records under index 1 consists of characters satisfying `q`. -/
theorem mtch_grp1 {q : Char → Bool} :
    ∀ (r : RE), REok1 q r →
      ∀ (s : List Char) (pr : List Char × List (Nat × List Char)), pr ∈ mtch r s →
        ∀ cs, (1, cs) ∈ pr.2 → ∀ c ∈ cs, q c = true := by
  intro r
  induction r with
  | eps =>
    intro _ s pr hpr
    simp [mtch] at hpr
    simp [hpr]
  | eos =>
    intro _ s pr hpr
    simp only [mtch] at hpr
    by_cases h : s.isEmpty
    · simp [h] at hpr; simp [hpr]
    · simp [h] at hpr
  | cls p =>
    intro _ s pr hpr
    match s with
    | [] => simp [mtch] at hpr
    | c :: cs =>
      simp only [mtch] at hpr
      by_cases h : p c
      · simp [h] at hpr; simp [hpr]
      · simp [h] at hpr
  | nla p =>
    intro _ s pr hpr
    match s with
    | [] => simp [mtch] at hpr; simp [hpr]
    | c :: cs =>
      simp only [mtch] at hpr
      by_cases h : p c
      · simp [h] at hpr
      · simp [h] at hpr; simp [hpr]
  | star g p =>
    intro _ s pr hpr
    match g with
    | true =>
      simp only [mtch, List.mem_map] at hpr
      obtain ⟨s2, _, hpr2⟩ := hpr
      simp [← hpr2]
    | false =>
      simp only [mtch, List.mem_map] at hpr
      obtain ⟨s2, _, hpr2⟩ := hpr
      simp [← hpr2]
  | rep lo hi p =>
    intro _ s pr hpr
    simp only [mtch, List.mem_map] at hpr
    obtain ⟨s2, _, hpr2⟩ := hpr
    simp [← hpr2]
  | opt r ih =>
    intro hok s pr hpr
    simp only [mtch] at hpr
    rcases List.mem_append.mp hpr with h | h
    · exact ih hok s pr h
    · rcases List.mem_singleton.mp h with h'
      simp [h']
  | grp i r ih =>
    intro hok s pr hpr
    simp only [mtch, List.mem_map] at hpr
    obtain ⟨pr2, hpr2, hmap⟩ := hpr
    intro cs hcs
    rw [← hmap] at hcs
    simp only at hcs
    rcases List.mem_cons.mp hcs with h | h
    · -- the capture of this very group
      have hi : i = 1 := by
        have := congrArg Prod.fst h.symm
        simpa using this
      have hcseq : cs = s.take (s.length - pr2.1.length) := by
        have := congrArg Prod.snd h.symm
        simpa using this.symm
      obtain ⟨pre, hpre, hall⟩ := mtch_consumes r s pr2 hpr2
      have hcs' : cs = pre := by
        rw [hcseq, hpre]
        exact take_append_sub
      simp only [REok1] at hok
      intro c hc
      exact hok.1 hi c (hall c (hcs' ▸ hc))
    · simp only [REok1] at hok
      exact ih hok.2 s pr2 hpr2 cs h
  | seq a b iha ihb =>
    intro hok s pr hpr
    simp only [REok1] at hok
    have hoka : REok1 q a := hok.1
    have hokb : REok1 q b := hok.2
    simp only [mtch, List.mem_flatMap, List.mem_map] at hpr
    obtain ⟨pa, hpa, qr, hqr, hmap⟩ := hpr
    intro cs hcs
    rw [← hmap] at hcs
    simp only at hcs
    rcases List.mem_append.mp hcs with h | h
    · exact iha hoka s pa hpa cs h
    · exact ihb hokb pa.1 qr hqr cs h
  | alt a b iha ihb =>
    intro hok s pr hpr
    simp only [REok1] at hok
    simp only [mtch] at hpr
    rcases List.mem_append.mp hpr with h | h
    · exact iha hok.1 s pr h
    · exact ihb hok.2 s pr h

/-- A successful `searchFrom` returns the captures of some `mtch` result. -/
theorem searchFrom_caps {r : RE} :
    ∀ {l : List Char} {caps : List (Nat × List Char)}, searchFrom r l = some caps →
      ∃ s pr, pr ∈ mtch r s ∧ pr.2 = caps := by
  intro l
  induction l with
  | nil =>
    intro caps h
    simp only [searchFrom] at h
    match hm : (mtch r []).head? with
    | none => rw [hm] at h; simp at h
    | some pr =>
      rw [hm] at h
      simp at h
      exact ⟨[], pr, List.mem_of_mem_head? hm, h⟩
  | cons c cs ih =>
    intro caps h
    simp only [searchFrom] at h
    match hm : (mtch r (c :: cs)).head? with
    | none =>
      rw [hm] at h
      exact ih h
    | some pr =>
      rw [hm] at h
      simp at h
      exact ⟨c :: cs, pr, List.mem_of_mem_head? hm, h⟩

/-- A successful `reSearch` returns the captures of some `mtch` result. -/
theorem reSearch_caps {r : RE} {t : String} {caps : List (Nat × List Char)}
    (h : reSearch r t = some caps) : ∃ s pr, pr ∈ mtch r s ∧ pr.2 = caps :=
  searchFrom_caps h

theorem lookup_mem {α β : Type} [BEq α] [LawfulBEq α] {k : α} {v : β} :
    ∀ {l : List (α × β)}, List.lookup k l = some v → (k, v) ∈ l := by
  intro l
  induction l with
  | nil => intro h; simp [List.lookup] at h
  | cons kv rest ih =>
    intro h
    match kv with
    | (a, b) =>
      rw [List.lookup] at h
      by_cases hk : k == a
      · simp [hk] at h
        have hk' : k = a := eq_of_beq hk
        rw [hk', h]
        exact List.mem_cons_self _ _
      · simp [hk] at h
        exact List.mem_cons_of_mem _ (ih h)

theorem REok1_of_groupFree {q : Char → Bool} :
    ∀ {r : RE}, groupFree r = true → REok1 q r := by
  intro r
  induction r with
  | opt r ih =>
    intro h
    rw [groupFree] at h
    exact (by simpa [REok1] using ih h)
  | grp i r _ => intro h; simp [groupFree] at h
  | seq a b iha ihb =>
    intro h
    rw [groupFree] at h
    simp only [Bool.and_eq_true] at h
    exact (by simp [REok1]; exact ⟨iha h.1, ihb h.2⟩)
  | alt a b iha ihb =>
    intro h
    rw [groupFree] at h
    simp only [Bool.and_eq_true] at h
    exact (by simp [REok1]; exact ⟨iha h.1, ihb h.2⟩)
  | eps => intro _; simp [REok1]
  | eos => intro _; simp [REok1]
  | cls p => intro _; simp [REok1]
  | nla p => intro _; simp [REok1]
  | star g p => intro _; simp [REok1]
  | rep lo hi p => intro _; simp [REok1]

theorem groupFree_strRE : ∀ (cs : List Char), groupFree (strRE cs) = true := by
  intro cs
  induction cs with
  | nil => rfl
  | cons c cs ih => simp [strRE, groupFree, chr, ih]

/-! ## ISBN extractor: output contract -/

theorem isbnPat1_ok : REok1 digitDashCls isbnPat1 := by
  simp [isbnPat1, seqs, REok1, strRE, chr, wsStar, canConsume]

theorem isbnPat2_ok : REok1 digitDashCls isbnPat2 := by
  simp [isbnPat2, seqs, REok1, strRE, chr, wsStar, canConsume]

theorem isbnPat3_ok : REok1 digitDashCls isbnPat3 := by
  simp [isbnPat3, seqs, REok1, strRE, chr, wsStar, canConsume]

theorem isbnPat4_ok : REok1 digitDashCls isbnPat4 := by
  simp [isbnPat4, seqs, REok1, strRE, chr, wsStar, canConsume, digitDashCls]
  rintro c ((h | h | h) | h | h)
  · left; rw [h]; decide
  · left; rw [h]; decide
  · left; rw [h]; decide
  · left; exact h
  · right; exact h

theorem isbnPat5_ok : REok1 digitDashCls isbnPat5 := by
  simp [isbnPat5, seqs, REok1, strRE, chr, wsStar, canConsume]

theorem isbnPatterns_ok : ∀ p ∈ isbnPatterns, REok1 digitDashCls p := by
  intro p hp
  simp only [isbnPatterns, List.mem_cons, List.mem_singleton, List.not_mem_nil, or_false] at hp
  rcases hp with h | h | h | h | h
  · exact h ▸ isbnPat1_ok
  · exact h ▸ isbnPat2_ok
  · exact h ▸ isbnPat3_ok
  · exact h ▸ isbnPat4_ok
  · exact h ▸ isbnPat5_ok

theorem stripSep_digits {g : List Char} (h : ∀ c ∈ g, digitDashCls c = true) :
    ∀ c ∈ stripSep g, c.isDigit = true := by
  intro c hc
  rw [stripSep] at hc
  obtain ⟨hmem, hkeep⟩ := List.mem_filter.mp hc
  have hg := h c hmem
  simp [digitDashCls] at hg
  simp only [Bool.not_eq_true', Bool.or_eq_false_iff] at hkeep
  rcases hg with h1 | h2
  · exact h1
  · rw [h2] at hkeep
    simp at hkeep

theorem isbnScan_cons_none {p : RE} {ps : List RE} {t : String}
    (h : reSearch p t = none) : isbnScan (p :: ps) t = isbnScan ps t := by
  simp [isbnScan, h]

theorem isbnScan_cons_noGrp {p : RE} {ps : List RE} {t : String}
    {caps : List (Nat × List Char)} (h : reSearch p t = some caps)
    (h2 : List.lookup 1 caps = none) : isbnScan (p :: ps) t = isbnScan ps t := by
  simp [isbnScan, h, h2]

theorem isbnScan_cons_reject {p : RE} {ps : List RE} {t : String}
    {caps : List (Nat × List Char)} {g : List Char} (h : reSearch p t = some caps)
    (h2 : List.lookup 1 caps = some g)
    (h3 : ¬((stripSep g).length = 10 ∨ (stripSep g).length = 13)) :
    isbnScan (p :: ps) t = isbnScan ps t := by
  simp only [isbnScan, h, h2]
  rw [if_neg h3]

theorem isbnScan_cons_accept {p : RE} {ps : List RE} {t : String}
    {caps : List (Nat × List Char)} {g : List Char} (h : reSearch p t = some caps)
    (h2 : List.lookup 1 caps = some g)
    (h3 : (stripSep g).length = 10 ∨ (stripSep g).length = 13) :
    isbnScan (p :: ps) t = String.mk (stripSep g) := by
  simp only [isbnScan, h, h2]
  rw [if_pos h3]

theorem isbnScan_sound :
    ∀ (ps : List RE), (∀ p ∈ ps, REok1 digitDashCls p) → ∀ (t : String),
      isbnScan ps t = "" ∨
        ((isbnScan ps t).data.all Char.isDigit = true ∧
          ((isbnScan ps t).length = 10 ∨ (isbnScan ps t).length = 13)) := by
  intro ps
  induction ps with
  | nil => intro _ t; left; rfl
  | cons p ps ih =>
    intro hok t
    have hokp : REok1 digitDashCls p := hok p (List.mem_cons_self _ _)
    have hoks : ∀ p' ∈ ps, REok1 digitDashCls p' := fun p' hp' => hok p' (List.mem_cons_of_mem _ hp')
    match hr : reSearch p t with
    | none => rw [isbnScan_cons_none hr]; exact ih hoks t
    | some caps =>
      match hl : List.lookup 1 caps with
      | none => rw [isbnScan_cons_noGrp hr hl]; exact ih hoks t
      | some g =>
        by_cases h3 : (stripSep g).length = 10 ∨ (stripSep g).length = 13
        · rw [isbnScan_cons_accept hr hl h3]
          right
          constructor
          · obtain ⟨s, pr, hpr, hcaps⟩ := reSearch_caps hr
            have hmem : (1, g) ∈ pr.2 := by rw [hcaps]; exact lookup_mem hl
            have hchars := mtch_grp1 p hokp s pr hpr g hmem
            have hdig := stripSep_digits hchars
            exact List.all_eq_true.mpr hdig
          · exact h3
        · rw [isbnScan_cons_reject hr hl h3]; exact ih hoks t

/-! ## Page extractor: invariants of the three phases -/

theorem rangeScan_inv :
    ∀ (ps : List RE) (t : String) {s e c : String},
      rangeScan ps t = some (s, e, c) →
      ∃ a b : Nat, s = toString a ∧ e = toString b ∧
        c = toString ((b : Int) - (a : Int) + 1) := by
  intro ps
  induction ps with
  | nil => intro t s e c h; simp [rangeScan] at h
  | cons p ps ih =>
    intro t s e c h
    simp only [rangeScan] at h
    repeat' split at h
    all_goals first
      | exact ih t h
      | (simp only [Option.some.injEq, Prod.mk.injEq] at h
         exact ⟨_, _, h.1.symm, h.2.1.symm, h.2.2.symm⟩)

theorem singleScan_inv :
    ∀ (ps : List RE) (t : String) {s e c : String},
      singleScan ps t = some (s, e, c) →
      ∃ n : Nat, s = toString n ∧ e = toString n ∧ c = "1" := by
  intro ps
  induction ps with
  | nil => intro t s e c h; simp [singleScan] at h
  | cons p ps ih =>
    intro t s e c h
    simp only [singleScan] at h
    repeat' split at h
    all_goals first
      | exact ih t h
      | (simp only [Option.some.injEq, Prod.mk.injEq] at h
         exact ⟨_, h.1.symm, h.2.1.symm, h.2.2.symm⟩)

/-- Shorthand for the fallback's acceptance test on a digit-run value. -/
def pageCandidate (n : Nat) : Prop := 1 ≤ n ∧ n ≤ 9999 ∧ ¬(1900 ≤ n ∧ n ≤ 2100)

instance (n : Nat) : Decidable (pageCandidate n) := by
  unfold pageCandidate
  infer_instance

theorem fallbackScan_none :
    ∀ (runs : List (List Char)),
      (∀ r ∈ runs, ∀ n, pyInt? r = some n → ¬pageCandidate n) →
      fallbackScan runs = none := by
  intro runs
  induction runs with
  | nil => intro _; rfl
  | cons r rest ih =>
    intro h
    have hrest := ih fun r' hr' => h r' (List.mem_cons_of_mem _ hr')
    match hn : pyInt? r with
    | none => simp [fallbackScan, hn, hrest]
    | some n =>
      have hbad := h r (List.mem_cons_self _ _) n hn
      simp only [pageCandidate] at hbad
      simp only [fallbackScan, hn]
      rw [if_neg hbad]
      exact hrest

theorem fallbackScan_first :
    ∀ (pre : List (List Char)) (r : List Char) (post : List (List Char)) (n : Nat),
      pyInt? r = some n → pageCandidate n →
      (∀ r' ∈ pre, ∀ m, pyInt? r' = some m → ¬pageCandidate m) →
      fallbackScan (pre ++ r :: post) = some n := by
  intro pre
  induction pre with
  | nil =>
    intro r post n hn hcand _
    have hc := hcand
    simp only [pageCandidate] at hc
    simp only [List.nil_append, fallbackScan, hn]
    rw [if_pos hc]
  | cons r0 pre ih =>
    intro r post n hn hcand hpre
    have htail := ih r post n hn hcand fun r' hr' => hpre r' (List.mem_cons_of_mem _ hr')
    match h0 : pyInt? r0 with
    | none => simp [fallbackScan, h0, htail]
    | some m =>
      have hbad := hpre r0 (List.mem_cons_self _ _) m h0
      simp only [pageCandidate] at hbad
      simp only [List.cons_append, fallbackScan, h0]
      rw [if_neg hbad]
      exact htail

theorem extract_page_fallback_eq {t : String}
    (h1 : rangeScan (pagePatterns.take (pagePatterns.length - 2)) t = none)
    (h2 : singleScan (pagePatterns.drop (pagePatterns.length - 2)) t = none) :
    extract_page_numbers t =
      (match fallbackScan (digitRuns t) with
       | some n => (toString n, toString n, "1")
       | none => ("", "", "")) := by
  simp only [extract_page_numbers, h1, h2]

/-! ## Assembler lemmas -/

theorem processPubs_mem {q : String} {a : AuthorInfo} :
    ∀ {pubs : List (Option Pub)} {r : Record}, r ∈ processPubs q a pubs →
      ∃ p : Pub, some p ∈ pubs ∧ r = makeRecord q a p := by
  intro pubs
  induction pubs with
  | nil => intro r h; simp [processPubs] at h
  | cons op rest ih =>
    intro r h
    match op with
    | none =>
      simp only [processPubs] at h
      obtain ⟨p, hp, hr⟩ := ih h
      exact ⟨p, List.mem_cons_of_mem _ hp, hr⟩
    | some p0 =>
      simp only [processPubs] at h
      rcases List.mem_cons.mp h with h' | h'
      · exact ⟨p0, List.mem_cons_self _ _, h'⟩
      · obtain ⟨p, hp, hr⟩ := ih h'
        exact ⟨p, List.mem_cons_of_mem _ hp, hr⟩

theorem scrapeFuel_step_fail (q : String) (w : Nat → AttemptOutcome) (m fuel : Nat)
    (acc : List Record) (sleeps : List Nat)
    (h : w (m - (fuel + 1)) = .fail) (hf : fuel ≠ 0) :
    scrapeFuel q w m (fuel + 1) acc sleeps
      = scrapeFuel q w m fuel acc (sleeps ++ [((m - (fuel + 1)) + 1) * 5]) := by
  simp [scrapeFuel, h, hf]

theorem scrapeFuel_fail_last (q : String) (w : Nat → AttemptOutcome) (m : Nat)
    (acc : List Record) (sleeps : List Nat) (h : w (m - 1) = .fail) :
    scrapeFuel q w m 1 acc sleeps = ⟨acc, sleeps, (m - 1) + 1⟩ := by
  simp [scrapeFuel, h]

theorem scrapeFuel_noAuthor (q : String) (w : Nat → AttemptOutcome) (m fuel : Nat)
    (acc : List Record) (sleeps : List Nat) (h : w (m - (fuel + 1)) = .noAuthor) :
    scrapeFuel q w m (fuel + 1) acc sleeps = ⟨acc, sleeps, (m - (fuel + 1)) + 1⟩ := by
  simp [scrapeFuel, h]

theorem scrapeFuel_ok (q : String) (w : Nat → AttemptOutcome) (m fuel : Nat)
    (acc : List Record) (sleeps : List Nat) (a : AuthorInfo) (pubs : List (Option Pub))
    (h : w (m - (fuel + 1)) = .ok a pubs) :
    scrapeFuel q w m (fuel + 1) acc sleeps
      = ⟨acc ++ processPubs q a pubs, sleeps, (m - (fuel + 1)) + 1⟩ := by
  simp [scrapeFuel, h]

/-! ## The claims -/

/-- Claim C1, as stated, is false on the code: the issue extractor does not
receive the RawCorpus.  For a publication whose bib has abstract "issue 5"
and every other field empty, the corpus is "issue 5" and `extract_issue` on
it yields "5", yet the assembled record's Issue field is "" because line 191
passes `citation + volume` (here empty) to the issue extractor. -/
theorem C1_issue_input_cex :
    (makeRecord "q" ⟨"", ""⟩ ⟨⟨"", "", "", "", "", "", "", "issue 5", "", ""⟩, "", ""⟩).issue = ""
    ∧ extract_issue (rawCorpus ⟨"", "", "", "", "", "", "", "issue 5", "", ""⟩) = "5"
    ∧ (makeRecord "q" ⟨"", ""⟩ ⟨⟨"", "", "", "", "", "", "", "issue 5", "", ""⟩, "", ""⟩).issue
        ≠ extract_issue (rawCorpus ⟨"", "", "", "", "", "", "", "issue 5", "", ""⟩) := by
  refine ⟨by decide, by decide, by decide⟩

/-- Claim C1 (amended): in every assembled record, the page, ISSN and ISBN
fields are the extractors applied to the RawCorpus (citation, abstract, note,
volume, pages concatenated in that order), the conference-name field is the
conference extractor applied to venue and title, but the issue field is the
issue extractor applied to the concatenation of the citation and volume
fields only — not to the corpus. -/
theorem C1_extractor_inputs (q : String) (a : AuthorInfo) (p : Pub) :
    (makeRecord q a p).pageStart = (extract_page_numbers (rawCorpus p.bib)).1
    ∧ (makeRecord q a p).pageEnd = (extract_page_numbers (rawCorpus p.bib)).2.1
    ∧ (makeRecord q a p).pageCount = (extract_page_numbers (rawCorpus p.bib)).2.2
    ∧ (makeRecord q a p).ISSN = extract_issn (rawCorpus p.bib)
    ∧ (makeRecord q a p).ISBN = extract_isbn (rawCorpus p.bib)
    ∧ (makeRecord q a p).conferenceName = extract_conference_name p.bib.venue p.bib.title
    ∧ (makeRecord q a p).issue = extract_issue (p.bib.citation ++ p.bib.volume) :=
  ⟨rfl, rfl, rfl, rfl, rfl, rfl, rfl⟩

/-- Claim C2 names a code bug: the comments at lines 79 and 95 say the first
loop excludes and the second loop contains the single-page patterns, but the
slices `patterns[:-2]` and `patterns[-2:]` select indices 0-6 and 7-8, while
the single-page patterns sit at indices 5-6.  So the second phase actually
tries the Vol./Elsevier range patterns, and on the input "p. 2023" — which
the single-page pattern `pp?\.?\s*(\d+)(?!\d)` matches with group "2023" —
the extractor falls through to the year-excluding fallback and returns
`('', '', '')` instead of the `('2023', '2023', '1')` the claim (and the
code's own comments) prescribe. -/
theorem C2_single_page_slice_bug :
    extract_page_numbers "p. 2023" = ("", "", "")
    ∧ singleScan [pagePat5, pagePat6] "p. 2023" = some ("2023", "2023", "1")
    ∧ pagePatterns.drop (pagePatterns.length - 2) = [pagePat7, pagePat8] := by
  refine ⟨by decide, by decide, rfl⟩

/-- Claim C3: whenever `extract_page_numbers` returns a non-empty page count,
the start and end pages are canonical decimal numerals (leading zeros
stripped) and the count is exactly `end - start + 1` computed as integers. -/
theorem C3_page_count_invariant (t s e c : String)
    (h : extract_page_numbers t = (s, e, c)) (hc : c ≠ "") :
    ∃ a b : Nat, s = toString a ∧ e = toString b ∧
      c = toString ((b : Int) - (a : Int) + 1) := by
  rcases hr : rangeScan (pagePatterns.take (pagePatterns.length - 2)) t with _ | r
  · rcases hs : singleScan (pagePatterns.drop (pagePatterns.length - 2)) t with _ | r2
    · rcases hf : fallbackScan (digitRuns t) with _ | n
      · simp only [extract_page_numbers, hr, hs, hf, Prod.mk.injEq] at h
        exact absurd h.2.2.symm hc
      · simp only [extract_page_numbers, hr, hs, hf, Prod.mk.injEq] at h
        refine ⟨n, n, h.1.symm, h.2.1.symm, ?_⟩
        rw [← h.2.2]
        have harith : (n : Int) - (n : Int) + 1 = 1 := by ring
        rw [harith]
        rfl
    · rcases r2 with ⟨s2, e2, c2⟩
      obtain ⟨n, hn1, hn2, hn3⟩ := singleScan_inv _ t hs
      simp only [extract_page_numbers, hr, hs, Prod.mk.injEq] at h
      refine ⟨n, n, by rw [← h.1, hn1], by rw [← h.2.1, hn2], ?_⟩
      rw [← h.2.2, hn3]
      have harith : (n : Int) - (n : Int) + 1 = 1 := by ring
      rw [harith]
      rfl
  · rcases r with ⟨s1, e1, c1⟩
    obtain ⟨a, b, ha, hb, hcnt⟩ := rangeScan_inv _ t hr
    simp only [extract_page_numbers, hr, Prod.mk.injEq] at h
    exact ⟨a, b, by rw [← h.1, ha], by rw [← h.2.1, hb], by rw [← h.2.2, hcnt]⟩

/-- Witness for C3, at the spec's concrete example "pp. 007-010". -/
theorem C3_page_count_invariant_witness :
    extract_page_numbers "pp. 007-010" = ("7", "10", "4")
    ∧ ∃ a b : Nat, "7" = toString a ∧ "10" = toString b
        ∧ "4" = toString ((b : Int) - (a : Int) + 1) :=
  ⟨by decide, C3_page_count_invariant "pp. 007-010" "7" "10" "4" (by decide) (by decide)⟩

/-- Claim C4: with the default three retries, two failing attempts followed
by a successful one make exactly 3 attempts, sleep 5 s then 10 s, and return
the third attempt's records; three failing attempts also stop after 3
attempts with the same back-off sleeps, returning the records collected so
far (none, since a failed attempt raises before any publication is
processed). -/
theorem C4_retry_backoff (q : String) (w : Nat → AttemptOutcome)
    (h0 : w 0 = .fail) (h1 : w 1 = .fail) :
    (∀ (a : AuthorInfo) (pubs : List (Option Pub)), w 2 = .ok a pubs →
        scrape_scholar_data q w 3 = ⟨processPubs q a pubs, [5, 10], 3⟩)
    ∧ (w 2 = .fail → scrape_scholar_data q w 3 = ⟨[], [5, 10], 3⟩) := by
  constructor
  · intro a pubs h2
    simp [scrape_scholar_data, scrapeFuel, h0, h1, h2]
  · intro h2
    simp [scrape_scholar_data, scrapeFuel, h0, h1, h2]

/-- Witness for C4: a concrete oracle failing twice then succeeding with an
empty publication list. -/
theorem C4_retry_backoff_witness :
    scrape_scholar_data "q"
        (fun n => match n with | 0 => .fail | 1 => .fail | _ => .ok ⟨"", ""⟩ []) 3
      = ⟨[], [5, 10], 3⟩ :=
  (C4_retry_backoff "q"
      (fun n => match n with | 0 => .fail | 1 => .fail | _ => .ok ⟨"", ""⟩ [])
      rfl rfl).1 ⟨"", ""⟩ [] rfl

/-- Claim C5: once both pattern loops have produced nothing, the result is
decided by the fallback over the digit runs of the text: if no digit run has
a value in `[1, 9999]` outside the year window `[1900, 2100]` the extractor
returns `('', '', '')`; the first digit run whose value `n` qualifies is
returned as `(n, n, '1')` with leading zeros stripped. -/
theorem C5_fallback_year_exclusion (t : String)
    (h1 : rangeScan (pagePatterns.take (pagePatterns.length - 2)) t = none)
    (h2 : singleScan (pagePatterns.drop (pagePatterns.length - 2)) t = none) :
    ((∀ r ∈ digitRuns t, ∀ n, pyInt? r = some n → ¬pageCandidate n) →
        extract_page_numbers t = ("", "", ""))
    ∧ (∀ (pre : List (List Char)) (r : List Char) (post : List (List Char)) (n : Nat),
        digitRuns t = pre ++ r :: post → pyInt? r = some n → pageCandidate n →
        (∀ r' ∈ pre, ∀ m, pyInt? r' = some m → ¬pageCandidate m) →
        extract_page_numbers t = (toString n, toString n, "1")) := by
  constructor
  · intro hall
    rw [extract_page_fallback_eq h1 h2, fallbackScan_none _ hall]
  · intro pre r post n hsplit hn hcand hpre
    rw [extract_page_fallback_eq h1 h2, hsplit, fallbackScan_first pre r post n hn hcand hpre]

/-- Witness for C5: the text "2023", whose only digit run is the year 2023,
yields `('', '', '')`. -/
theorem C5_fallback_year_exclusion_witness :
    extract_page_numbers "2023" = ("", "", "") := by
  apply (C5_fallback_year_exclusion "2023" (by decide) (by decide)).1
  intro r hr n hn
  have hd : digitRuns "2023" = [['2', '0', '2', '3']] := by decide
  rw [hd] at hr
  have hr' : r = ['2', '0', '2', '3'] := by simpa using hr
  subst hr'
  have hp : pyInt? ['2', '0', '2', '3'] = some 2023 := by decide
  rw [hp] at hn
  have hn' : n = 2023 := (Option.some.inj hn).symm
  subst hn'
  decide

/-- Claim C6: `extract_isbn` returns the empty string or an all-digit string
of length exactly 10 or 13; and a matched candidate whose separator-stripped
length is neither 10 nor 13 is rejected, the scan continuing with the
remaining patterns. -/
theorem C6_isbn_contract :
    (∀ t : String, extract_isbn t = "" ∨
      ((extract_isbn t).data.all Char.isDigit = true ∧
        ((extract_isbn t).length = 10 ∨ (extract_isbn t).length = 13)))
    ∧ (∀ (p : RE) (ps : List RE) (t : String) (caps : List (Nat × List Char)) (g : List Char),
        reSearch p t = some caps → List.lookup 1 caps = some g →
        ¬((stripSep g).length = 10 ∨ (stripSep g).length = 13) →
        isbnScan (p :: ps) t = isbnScan ps t) := by
  constructor
  · intro t
    exact isbnScan_sound isbnPatterns isbnPatterns_ok t
  · intro p ps t caps g h h2 h3
    exact isbnScan_cons_reject h h2 h3

/-- Witness for C6: on " 1234-56789 " the bare-span pattern matches with a
9-digit candidate, which is rejected, leaving the remaining (empty) pattern
list; and on the spec's ISBN-13 example the contract's right disjunct holds. -/
theorem C6_isbn_contract_witness :
    isbnScan [isbnPat5] " 1234-56789 " = isbnScan [] " 1234-56789 "
    ∧ (extract_isbn "ISBN-13: 978-0-123-45678-9" = "" ∨
        ((extract_isbn "ISBN-13: 978-0-123-45678-9").data.all Char.isDigit = true ∧
          ((extract_isbn "ISBN-13: 978-0-123-45678-9").length = 10 ∨
            (extract_isbn "ISBN-13: 978-0-123-45678-9").length = 13))) :=
  ⟨C6_isbn_contract.2 isbnPat5 [] " 1234-56789 "
      [(1, ['1', '2', '3', '4', '-', '5', '6', '7', '8', '9'])]
      ['1', '2', '3', '4', '-', '5', '6', '7', '8', '9']
      (by decide) (by decide) (by decide),
    C6_isbn_contract.1 "ISBN-13: 978-0-123-45678-9"⟩

/-- Claim C7: when the author search finds no author on the first attempt,
the assembler returns immediately: empty record list, no back-off sleep, and
exactly one attempt, for any positive retry budget. -/
theorem C7_no_author_terminal (q : String) (w : Nat → AttemptOutcome) (m : Nat)
    (hm : 1 ≤ m) (h0 : w 0 = .noAuthor) :
    scrape_scholar_data q w m = ⟨[], [], 1⟩ := by
  match m with
  | 0 => omega
  | k + 1 =>
    rw [scrape_scholar_data, scrapeFuel_noAuthor q w (k + 1) k [] []
      (by rw [Nat.sub_self]; exact h0)]
    simp [Nat.sub_self]

/-- Witness for C7 at the default budget of 3. -/
theorem C7_no_author_terminal_witness :
    scrape_scholar_data "q" (fun _ => .noAuthor) 3 = ⟨[], [], 1⟩ :=
  C7_no_author_terminal "q" (fun _ => .noAuthor) 3 (by decide) rfl

/-- Claim C8: a failing publication in the per-publication loop is skipped:
the records of the earlier publications are kept, the later publications are
still processed, and no exception escapes (the loop is a total function). -/
theorem C8_per_publication_isolation (q : String) (a : AuthorInfo)
    (pre post : List (Option Pub)) :
    processPubs q a (pre ++ none :: post)
      = processPubs q a pre ++ processPubs q a post := by
  induction pre with
  | nil => simp [processPubs]
  | cons op rest ih =>
    match op with
    | none => simp [processPubs, ih]
    | some p => simp [processPubs, ih]

/-- Claim C9: every record the assembler produces stores the source
publication's `pub_url` in its DOI field. -/
theorem C9_DOI_is_pub_url (q : String) (a : AuthorInfo) (pubs : List (Option Pub))
    (r : Record) (h : r ∈ processPubs q a pubs) :
    ∃ p : Pub, some p ∈ pubs ∧ r = makeRecord q a p ∧ r.DOI = p.pub_url := by
  obtain ⟨p, hp, hr⟩ := processPubs_mem h
  subst hr
  exact ⟨p, hp, rfl, rfl⟩

/-- Witness for C9 at a concrete publication with `pub_url` "url". -/
theorem C9_DOI_is_pub_url_witness :
    ∃ p : Pub,
      some p ∈ [some (⟨⟨"", "", "", "", "", "", "", "", "", ""⟩, "", "url"⟩ : Pub)]
      ∧ makeRecord "q" ⟨"", ""⟩ ⟨⟨"", "", "", "", "", "", "", "", "", ""⟩, "", "url"⟩
          = makeRecord "q" ⟨"", ""⟩ p
      ∧ (makeRecord "q" ⟨"", ""⟩ ⟨⟨"", "", "", "", "", "", "", "", "", ""⟩, "", "url"⟩).DOI
          = p.pub_url :=
  C9_DOI_is_pub_url "q" ⟨"", ""⟩ _ _ (by simp [processPubs])

/-- Claim C10: in every record the assembler produces, the 'Academic year',
'Year' and 'Date' fields are all equal, each being the source bib record's
`pub_year`. -/
theorem C10_year_fields_equal (q : String) (a : AuthorInfo) (pubs : List (Option Pub))
    (r : Record) (h : r ∈ processPubs q a pubs) :
    ∃ p : Pub, some p ∈ pubs ∧ r.academicYear = p.bib.pub_year
      ∧ r.year = p.bib.pub_year ∧ r.date = p.bib.pub_year
      ∧ r.academicYear = r.year ∧ r.year = r.date := by
  obtain ⟨p, hp, hr⟩ := processPubs_mem h
  subst hr
  exact ⟨p, hp, rfl, rfl, rfl, rfl, rfl⟩

/-- Witness for C10 at a concrete publication with `pub_year` "2020". -/
theorem C10_year_fields_equal_witness :
    ∃ p : Pub,
      some p ∈ [some (⟨⟨"", "2020", "", "", "", "", "", "", "", ""⟩, "", ""⟩ : Pub)]
      ∧ (makeRecord "q" ⟨"", ""⟩ ⟨⟨"", "2020", "", "", "", "", "", "", "", ""⟩, "", ""⟩).academicYear
          = p.bib.pub_year
      ∧ (makeRecord "q" ⟨"", ""⟩ ⟨⟨"", "2020", "", "", "", "", "", "", "", ""⟩, "", ""⟩).year
          = p.bib.pub_year
      ∧ (makeRecord "q" ⟨"", ""⟩ ⟨⟨"", "2020", "", "", "", "", "", "", "", ""⟩, "", ""⟩).date
          = p.bib.pub_year
      ∧ (makeRecord "q" ⟨"", ""⟩ ⟨⟨"", "2020", "", "", "", "", "", "", "", ""⟩, "", ""⟩).academicYear
          = (makeRecord "q" ⟨"", ""⟩ ⟨⟨"", "2020", "", "", "", "", "", "", "", ""⟩, "", ""⟩).year
      ∧ (makeRecord "q" ⟨"", ""⟩ ⟨⟨"", "2020", "", "", "", "", "", "", "", ""⟩, "", ""⟩).year
          = (makeRecord "q" ⟨"", ""⟩ ⟨⟨"", "2020", "", "", "", "", "", "", "", ""⟩, "", ""⟩).date :=
  C10_year_fields_equal "q" ⟨"", ""⟩ _ _ (by simp [processPubs])
